import Mathlib

/-!
Verification of the BPS patcher (pybps.py): a shallow embedding of the
program's data model and operations, and theorems about them.

Modelling conventions:
- Byte streams are `List Nat` (each element a byte, i.e. `< 256`); a file
  handle's position is a `Nat` index into the list.  `read n` returns up to
  `n` bytes (`(l.drop pos).take n`), short only at end of stream, exactly as
  a Python binary file does.
- Python `int` values that can go negative (relative seeks, the bulk-copy
  trigger `state.target.position - 8 > target_rel_offset`) are modelled on
  `Int`; everywhere else counters are `Nat` (Python ints are unbounded and
  non-negative there).
- Exceptions become `Except`: `StepError` for the errors raised while
  decoding/applying (`IndexError` from `b''[0]`, `InvalidFormatError` for a
  bad magic or an unrecognized command, `OSError` from seeking to a negative
  offset), and `PyError` adds the `ChecksumFailure` raised by verification.
  A `while` loop of the source that can run forever is modelled with the
  distinguished outcome `StepError.diverge` (see `sourceDrainLoopAux`).
- Loops are modelled with structural fuel; every call site passes fuel that
  provably dominates the Python loop's iteration count, so the model agrees
  with the source on every input (comments at each loop give the bound).
-/

/-- One step of the CRC-32 bit loop: shift right, conditionally xor the
reflected polynomial 0xEDB88320 (this is the table-free form of the zlib
`crc32` update). -/
def crcRound (c : Nat) : Nat :=
  if c &&& 1 = 1 then (c >>> 1) ^^^ 0xEDB88320 else c >>> 1

/-- Iterates `crcRound` k times. -/
def crcRounds : Nat → Nat → Nat
  | 0, c => c
  | k + 1, c => crcRounds k (crcRound c)

/-- Folds one byte into a CRC-32 accumulator (8 bit rounds).  Inputs are
masked to their widths (the accumulator is 32 bits wide, a byte 8), which is
the identity on the values the program produces. -/
def crc32Update (c b : Nat) : Nat :=
  crcRounds 8 ((c &&& 0xFFFFFFFF) ^^^ (b &&& 0xFF))

/-- zlib's `crc32(data, crc)`: pre- and post-conditioning xor with all ones
around a per-byte fold.  `crc32 [] c = c`, and checksums accumulate across
calls exactly as the running checksum of `_ReadState` does. -/
def crc32 (data : List Nat) (crc : Nat) : Nat :=
  (data.foldl crc32Update (crc ^^^ 0xFFFFFFFF)) ^^^ 0xFFFFFFFF

/-- `int.from_bytes(bs, 'little', signed=False)`. -/
def leNat (bs : List Nat) : Nat :=
  bs.foldr (fun b acc => b + 256 * acc) 0

/-- Little-endian 4-byte encoding of a 32-bit value (used to build concrete
patch files for the concrete-scenario theorems). -/
def le4 (n : Nat) : List Nat :=
  [n % 256, n / 256 % 256, n / 65536 % 256, n / 16777216 % 256]

/-- A read of `n` bytes from a stream `l` at position `pos`: may return fewer
than `n` bytes only at end of stream, like `BinaryIO.read`. -/
def readAt (l : List Nat) (pos n : Nat) : List Nat :=
  (l.drop pos).take n

/-- The errors the decode/apply code can raise before checksum verification:
`indexError` is the `IndexError` from `input.read(1)[0]` on an exhausted
stream, `invalidMagic`/`invalidCommand` are the two `InvalidFormatError`
raises, `osError` is the `OSError` from `seek` to a negative offset, and
`diverge` marks a `while` loop of the source that runs forever (it is not a
Python exception; see `sourceDrainLoopAux`). -/
inductive StepError where
  | indexError : StepError
  | invalidMagic : List Nat → StepError
  | invalidCommand : Nat → StepError
  | osError : StepError
  | diverge : StepError
deriving DecidableEq, Repr

/-- Errors of the whole `_patch` call: a `StepError`, or the
`ChecksumFailure(f'... checksum {computed:x} != {expected:x}')` raised during
verification.  `label` is the literal word before ` checksum` in the message
(the source writes `'Source checksum ...'` in all three raises). -/
inductive PyError where
  | step : StepError → PyError
  | checksumFailure : String → Nat → Nat → PyError
deriving DecidableEq, Repr

deriving instance DecidableEq for Except

/-- Accumulator form of `_decode_number`'s loop: `data`/`shift` are the
running value and scale, the list is the unread rest of the stream.  Returns
the decoded value and the number of bytes consumed; an exhausted stream makes
`input.read(1)[0]` raise `IndexError`. -/
def decodeNumberA : List Nat → Nat → Nat → Except StepError (Nat × Nat)
  | [], _, _ => .error .indexError
  | x :: rest, data, shift =>
    let d2 := data + (x &&& 0x7f) * shift
    if x &&& 0x80 ≠ 0 then
      .ok (d2, 1)
    else
      match decodeNumberA rest (d2 + (shift <<< 7)) (shift <<< 7) with
      | .ok (v, k) => .ok (v, k + 1)
      | .error e => .error e

/-- `_decode_number(input)` on the unread rest of a stream: value and bytes
consumed. -/
def decode_number (l : List Nat) : Except StepError (Nat × Nat) :=
  decodeNumberA l 0 1

/-- Modelled from the spec: the VarInt encoder is an external/test-only
counterpart (no encoder exists in the repository); this follows the spec's
cumulative-scale-bias scheme: emit `n % 128`, recurse on `n / 128 - 1`, and
set the high bit on the final byte. -/
def encodeNumber (n : Nat) : List Nat :=
  if h : n < 128 then [128 + n]
  else (n % 128) :: encodeNumber (n / 128 - 1)
termination_by n
decreasing_by
  have h1 : n / 128 ≤ n := Nat.div_le_self n 128
  omega

/-- The instruction kind of a decoded opcode word: its low two bits
(`data & 3`). -/
def commandOf (data : Nat) : Nat := data &&& 3

/-- The sign-and-magnitude relative offset of a copy instruction:
`(-1 if (data & 1) else 1) * (data >> 1)`. -/
def signedOffset (d : Nat) : Int :=
  (if d &&& 1 ≠ 0 then (-1 : Int) else 1) * (d >>> 1 : Nat)

/-- `BinaryIO.seek(delta, io.SEEK_CUR)`: seeking to a negative offset raises
`OSError`; seeking past end of file is allowed. -/
def seekChecked (cur : Nat) (delta : Int) : Except StepError Nat :=
  let np : Int := (cur : Int) + delta
  if np < 0 then .error .osError else .ok np.toNat

/-- The mutable state of `_patch`: the three checksummed streams of
`_PatchState` (source/patch read positions with running checksums, the
target bytes written so far with a running checksum; the target's write
position is `tgt.length`), plus the two raw back-reference handles
`source_rel`/`target_rel` (positions only, no checksum).  `target_rel` is
opened at 0, so `target_rel_base = 0` and the offset used by TargetCopy is
`trel` itself. -/
structure PState where
  src : List Nat
  spos : Nat
  scrc : Nat
  pat : List Nat
  ppos : Nat
  pcrc : Nat
  tgt : List Nat
  tcrc : Nat
  srel : Nat
  trel : Nat
deriving DecidableEq, Repr, Inhabited

/-- `state.patch.read(n)`: up to `n` bytes, position advanced by the amount
obtained, every byte obtained folded into the running checksum
(`zlib.crc32(data, self.checksum) & 0xffffffff`). -/
def readPatch (s : PState) (n : Nat) : List Nat × PState :=
  let data := readAt s.pat s.ppos n
  (data, { s with ppos := s.ppos + data.length,
                  pcrc := crc32 data s.pcrc &&& 0xFFFFFFFF })

/-- `state.source.read(n)`. -/
def readSource (s : PState) (n : Nat) : List Nat × PState :=
  let data := readAt s.src s.spos n
  (data, { s with spos := s.spos + data.length,
                  scrc := crc32 data s.scrc &&& 0xFFFFFFFF })

/-- `source_rel.read(n)`: the raw source back-reference handle (no
checksum). -/
def readSourceRel (s : PState) (n : Nat) : List Nat × PState :=
  let data := readAt s.src s.srel n
  (data, { s with srel := s.srel + data.length })

/-- `target_rel.read(n)`: the raw read handle into the target file being
written; `target_abs` is unbuffered, so every byte already written is
visible. -/
def readTargetRel (s : PState) (n : Nat) : List Nat × PState :=
  let data := readAt s.tgt s.trel n
  (data, { s with trel := s.trel + data.length })

/-- `state.target.write(data)`: append, fold into the running checksum. -/
def writeTarget (s : PState) (data : List Nat) : PState :=
  { s with tgt := s.tgt ++ data,
           tcrc := crc32 data s.tcrc &&& 0xFFFFFFFF }

/-- `_buffered_copy(state.source, state.target, len)` with the default
buffer size 8192: each iteration reads `min(len, 8192)` and decrements `len`
by 8192, exactly as the source's `while length > 0` loop.  The fuel is the
initial `len`, which dominates the iteration count (`len` strictly drops by
8192 ≥ 1 per iteration). -/
def bufferedCopySourceAux : Nat → PState → Nat → PState
  | 0, s, _ => s
  | fuel + 1, s, len =>
    if len = 0 then s
    else
      let rd := readSource s (min len 8192)
      bufferedCopySourceAux fuel (writeTarget rd.2 rd.1) (len - 8192)

/-- `_buffered_copy(state.source, state.target, len)`. -/
def bufferedCopySource (s : PState) (len : Nat) : PState :=
  bufferedCopySourceAux len s len

/-- `_buffered_copy(state.patch, state.target, len)`: the TargetRead literal
payload, read through the patch's checksumming cursor. -/
def bufferedCopyPatchAux : Nat → PState → Nat → PState
  | 0, s, _ => s
  | fuel + 1, s, len =>
    if len = 0 then s
    else
      let rd := readPatch s (min len 8192)
      bufferedCopyPatchAux fuel (writeTarget rd.2 rd.1) (len - 8192)

/-- `_buffered_copy(state.patch, state.target, len)`. -/
def bufferedCopyPatch (s : PState) (len : Nat) : PState :=
  bufferedCopyPatchAux len s len

/-- `_buffered_copy(source_rel, state.target, len)`. -/
def bufferedCopySourceRelAux : Nat → PState → Nat → PState
  | 0, s, _ => s
  | fuel + 1, s, len =>
    if len = 0 then s
    else
      let rd := readSourceRel s (min len 8192)
      bufferedCopySourceRelAux fuel (writeTarget rd.2 rd.1) (len - 8192)

/-- `_buffered_copy(source_rel, state.target, len)`. -/
def bufferedCopySourceRel (s : PState) (len : Nat) : PState :=
  bufferedCopySourceRelAux len s len

/-- `_buffered_copy(target_rel, state.target, len, bufSize)`: the bulk
TargetCopy path; reads from the target's own already-written bytes while
appending to them.  The call site passes `bufSize ≥ 9 > 0`, so fuel `len`
dominates the iteration count. -/
def bufferedCopyTargetRelAux : Nat → PState → Nat → Nat → PState
  | 0, s, _, _ => s
  | fuel + 1, s, len, bufSize =>
    if len = 0 then s
    else
      let rd := readTargetRel s (min len bufSize)
      bufferedCopyTargetRelAux fuel (writeTarget rd.2 rd.1) (len - bufSize) bufSize

/-- `_buffered_copy(target_rel, state.target, len, bufSize)`. -/
def bufferedCopyTargetRel (s : PState) (len bufSize : Nat) : PState :=
  bufferedCopyTargetRelAux len s len bufSize

/-- The byte-by-byte TargetCopy fallback:
`for _ in range(len): state.target.write(target_rel.read(1))`. -/
def targetCopyByteLoop : PState → Nat → PState
  | s, 0 => s
  | s, len + 1 =>
    let rd := readTargetRel s 1
    targetCopyByteLoop (writeTarget rd.2 rd.1) len

/-- One iteration of `_patch`'s instruction loop (lines 153-177): decode the
opcode word through the patch cursor, dispatch on `data & 3`. -/
def patchStep (s : PState) : Except StepError PState :=
  match decode_number (s.pat.drop s.ppos) with
  | .error e => .error e
  | .ok (data, k) =>
    let s1 := (readPatch s k).2
    let command := commandOf data
    let length := (data >>> 2) + 1
    if command = 0 then
      .ok (bufferedCopySource s1 length)
    else if command = 1 then
      .ok (bufferedCopyPatch s1 length)
    else if command = 2 then
      match decode_number (s1.pat.drop s1.ppos) with
      | .error e => .error e
      | .ok (d2, k2) =>
        let s2 := (readPatch s1 k2).2
        match seekChecked s2.srel (signedOffset d2) with
        | .error e => .error e
        | .ok np => .ok (bufferedCopySourceRel { s2 with srel := np } length)
    else if command = 3 then
      match decode_number (s1.pat.drop s1.ppos) with
      | .error e => .error e
      | .ok (d2, k2) =>
        let s2 := (readPatch s1 k2).2
        match seekChecked s2.trel (signedOffset d2) with
        | .error e => .error e
        | .ok np =>
          let s3 := { s2 with trel := np }
          if (s3.tgt.length : Int) - 8 > (np : Int) then
            .ok (bufferedCopyTargetRel s3 length (min (s3.tgt.length - np) 8192))
          else
            .ok (targetCopyByteLoop s3 length)
    else
      .error (.invalidCommand command)

/-- `while state.patch.position < patch_end:` — each successful iteration
consumes at least the opcode word's terminator byte, so `ppos` strictly
increases and `patch_end + 1` fuel always dominates the iteration count
(the fuel-exhausted branch is unreachable from `patchPhase1`). -/
def patchLoopAux : Nat → Nat → PState → Except StepError PState
  | 0, patch_end, s => if s.ppos < patch_end then .error .diverge else .ok s
  | fuel + 1, patch_end, s =>
    if s.ppos < patch_end then
      match patchStep s with
      | .error e => .error e
      | .ok s2 => patchLoopAux fuel patch_end s2
    else
      .ok s

/-- The inner source-drain loop (lines 182-184): read `min(remaining, 8192)`
(never past the declared end), decrement `remaining` by 8192.  Fuel
`remaining` dominates the iteration count. -/
def sourceDrainPassAux : Nat → PState → Nat → PState
  | 0, s, _ => s
  | fuel + 1, s, remaining =>
    if remaining = 0 then s
    else
      let rd := readSource s (min remaining 8192)
      sourceDrainPassAux fuel rd.2 (remaining - 8192)

/-- The outer source-drain loop `while state.source.position < source_size:`
(line 180).  A pass that moves the position is re-entered; a pass that
leaves the position unchanged (the actual source is exhausted short of
`source_size`) leaves the whole state unchanged, so the Python loop re-runs
the identical pass forever: that divergence is the `none` outcome.  Each
productive pass advances `spos` by at least one, so `source_size + 1` fuel
dominates the iteration count of every terminating run. -/
def sourceDrainLoopAux : Nat → Nat → PState → Option PState
  | 0, source_size, s => if s.spos < source_size then none else some s
  | fuel + 1, source_size, s =>
    if s.spos < source_size then
      let s2 := sourceDrainPassAux (source_size - s.spos) s (source_size - s.spos)
      if s2.spos = s.spos then none
      else sourceDrainLoopAux fuel source_size s2
    else
      some s

/-- The inner target zero-pad loop (lines 186-189):
`state.target.write(_EMPTY_DATA[:min(remaining, 8192)])`. -/
def targetPadPassAux : Nat → PState → Nat → PState
  | 0, s, _ => s
  | fuel + 1, s, remaining =>
    if remaining = 0 then s
    else
      targetPadPassAux fuel (writeTarget s (List.replicate (min remaining 8192) 0))
        (remaining - 8192)

/-- The outer target zero-pad loop `while state.target.position <
target_size:` (line 185).  Writes always succeed in full, so each pass
advances the write position by at least one and `target_size + 1` fuel
dominates the iteration count. -/
def targetPadLoopAux : Nat → Nat → PState → PState
  | 0, _, s => s
  | fuel + 1, target_size, s =>
    if s.tgt.length < target_size then
      targetPadLoopAux fuel target_size
        (targetPadPassAux (target_size - s.tgt.length) s (target_size - s.tgt.length))
    else
      s

/-- Decode one VarInt through the patch's checksumming cursor (the bytes it
consumes advance `ppos` and fold into the patch checksum). -/
def decodePatchNum (s : PState) : Except StepError (Nat × PState) :=
  match decode_number (s.pat.drop s.ppos) with
  | .error e => .error e
  | .ok (v, k) => .ok (v, (readPatch s k).2)

/-- The sizes and metadata decoded from the header together with the state
after the instruction loop, source drain and target pad. -/
structure Phase1Out where
  st : PState
  source_size : Nat
  target_size : Nat
  metadata : List Nat
deriving DecidableEq, Repr, Inhabited

/-- `_patch` up to (not including) checksum verification: magic check,
header decode, instruction loop, source drain, target pad (lines
141-189). -/
def patchPhase1 (src pat : List Nat) (patch_size : Nat) : Except StepError Phase1Out :=
  let s0 : PState :=
    { src := src, spos := 0, scrc := 0, pat := pat, ppos := 0, pcrc := 0,
      tgt := [], tcrc := 0, srel := 0, trel := 0 }
  let m := readPatch s0 4
  if m.1 ≠ [66, 80, 83, 49] then .error (.invalidMagic m.1) else
  match decodePatchNum m.2 with
  | .error e => .error e
  | .ok (source_size, s2) =>
  match decodePatchNum s2 with
  | .error e => .error e
  | .ok (target_size, s3) =>
  match decodePatchNum s3 with
  | .error e => .error e
  | .ok (metadata_size, s4) =>
  let md := readPatch s4 metadata_size
  let patch_end := patch_size - 12
  match patchLoopAux (patch_end + 1) patch_end md.2 with
  | .error e => .error e
  | .ok s6 =>
  match sourceDrainLoopAux (source_size + 1) source_size s6 with
  | none => .error .diverge
  | some s7 =>
  let s8 := targetPadLoopAux (target_size + 1) target_size s7
  .ok { st := s8, source_size := source_size, target_size := target_size,
        metadata := md.1 }

/-- The summary `_patch` returns: header fields and the three checksums read
from the trailer (the expected values, not the computed ones). -/
structure PatchResult where
  source_size : Nat
  target_size : Nat
  metadata : List Nat
  source_checksum : Nat
  target_checksum : Nat
  patch_checksum : Nat
deriving DecidableEq, Repr, Inhabited

/-- Trailer reads and checksum verification (lines 191-208): the source and
target checksum fields are read through the patch's checksumming cursor, the
final patch checksum field through the raw handle (same underlying position,
no checksum fold); each mismatch raises unless `skip_checksum`.  The label
string of every raise is the literal the source's f-strings start with. -/
def patchVerify (skip_checksum : Bool) (o : Phase1Out) : Except PyError (PatchResult × PState) :=
  let p1 := readPatch o.st 4
  let source_checksum := leNat p1.1
  if skip_checksum = false ∧ p1.2.scrc ≠ source_checksum then
    .error (.checksumFailure "Source checksum" p1.2.scrc source_checksum)
  else
    let p2 := readPatch p1.2 4
    let target_checksum := leNat p2.1
    if skip_checksum = false ∧ p2.2.tcrc ≠ target_checksum then
      .error (.checksumFailure "Source checksum" p2.2.tcrc target_checksum)
    else
      let pb := readAt p2.2.pat p2.2.ppos 4
      let patch_checksum := leNat pb
      if skip_checksum = false ∧ p2.2.pcrc ≠ patch_checksum then
        .error (.checksumFailure "Source checksum" p2.2.pcrc patch_checksum)
      else
        .ok ({ source_size := o.source_size, target_size := o.target_size,
               metadata := o.metadata, source_checksum := source_checksum,
               target_checksum := target_checksum,
               patch_checksum := patch_checksum }, p2.2)

/-- The whole of `_patch(source_abs, source_rel, patch, patch_size,
target_abs, target_rel, skip_checksum)`: phase 1 then verification.  The
final state's `tgt` is the byte content written to the target file. -/
def patchModel (src pat : List Nat) (patch_size : Nat) (skip_checksum : Bool) :
    Except PyError (PatchResult × PState) :=
  match patchPhase1 src pat patch_size with
  | .error e => .error (.step e)
  | .ok o => patchVerify skip_checksum o

/-- The state of `dis`'s `_ReadState(patch)` reader: the patch bytes, the
read position and the running checksum (folded by every read, though `dis`
never uses it). -/
structure DisState where
  pat : List Nat
  pos : Nat
  crc : Nat
deriving DecidableEq, Repr, Inhabited

/-- A read through `dis`'s checksumming reader. -/
def readDis (d : DisState) (n : Nat) : List Nat × DisState :=
  let data := readAt d.pat d.pos n
  (data, { d with pos := d.pos + data.length,
                  crc := crc32 data d.crc &&& 0xFFFFFFFF })

/-- One line of `dis`'s instruction trace: what each `print` in the loop
shows (`SourceRead`/`TargetRead` print the length, the copies print only the
signed relative offset). -/
inductive DisRecord where
  | sourceRead : Nat → DisRecord
  | targetRead : Nat → List Nat → DisRecord
  | sourceCopy : Int → DisRecord
  | targetCopy : Int → DisRecord
deriving DecidableEq, Repr

/-- One iteration of `dis`'s instruction loop (lines 106-121): the same
decode and dispatch as `_patch`, read-only, producing the printed record. -/
def disStep (d : DisState) : Except StepError (DisRecord × DisState) :=
  match decode_number (d.pat.drop d.pos) with
  | .error e => .error e
  | .ok (data, k) =>
    let d1 := (readDis d k).2
    let command := commandOf data
    let length := (data >>> 2) + 1
    if command = 0 then
      .ok (.sourceRead length, d1)
    else if command = 1 then
      let rd := readDis d1 length
      .ok (.targetRead length rd.1, rd.2)
    else if command = 2 then
      match decode_number (d1.pat.drop d1.pos) with
      | .error e => .error e
      | .ok (d2, k2) => .ok (.sourceCopy (signedOffset d2), (readDis d1 k2).2)
    else if command = 3 then
      match decode_number (d1.pat.drop d1.pos) with
      | .error e => .error e
      | .ok (d2, k2) => .ok (.targetCopy (signedOffset d2), (readDis d1 k2).2)
    else
      .error (.invalidCommand command)

/-- Whether a `StepError` is one of the library's `InvalidFormatError`
raises (the format-error kind of the error taxonomy). -/
def isFormatError : StepError → Bool
  | .invalidMagic _ => true
  | .invalidCommand _ => true
  | _ => false

/-- Whether a run's outcome is the `ChecksumFailure` raise. -/
def isChecksumFailureE {α : Type} : Except PyError α → Bool
  | .error (.checksumFailure _ _ _) => true
  | _ => false

/-- Whether a step's outcome is the `InvalidFormatError` of the
`else`-branch for an unrecognized instruction kind. -/
def hitsInvalidCommand {α : Type} : Except StepError α → Bool
  | .error (.invalidCommand _) => true
  | _ => false

/-- The literal bytes of `b'hello'`. -/
def helloBytes : List Nat := [104, 101, 108, 108, 111]

/-- The TargetRead(5) scenario's patch up to the trailer: magic `BPS1`,
VarInts source_size=0, target_size=5, metadata_size=0, the single
instruction word TargetRead(5) (`(5-1)<<2 | 1 = 17`, encoded `145`) and the
literal `hello`. -/
def c6body : List Nat := [66, 80, 83, 49, 128, 133, 128, 145] ++ helloBytes

/-- The same patch through the source- and target-checksum trailer fields
(the part the patch checksum covers). -/
def c6head : List Nat := c6body ++ le4 (crc32 [] 0) ++ le4 (crc32 helloBytes 0)

/-- The complete 25-byte TargetRead(5) patch with the three correct CRC-32
trailer fields. -/
def c6pat : List Nat := c6head ++ le4 (crc32 c6head 0)

/-- The 5-byte source `A B C D E`. -/
def c2src : List Nat := [65, 66, 67, 68, 69]

/-- A 22-byte patch: source_size=5, target_size=5, SourceRead(3)
(`(3-1)<<2 | 0 = 8`, encoded `136`), then SourceCopy(length=2, delta=-3)
(`(2-1)<<2 | 2 = 6` encoded `134`; delta word `3<<1 | 1 = 7` encoded `135`),
then a zero trailer (read with the skip flag). -/
def c2patNeg : List Nat := [66, 80, 83, 49, 133, 133, 128, 136, 134, 135] ++ List.replicate 12 0

/-- The same patch with the SourceCopy delta 0 (delta word `0`, encoded
`128`). -/
def c2pat0 : List Nat := [66, 80, 83, 49, 133, 133, 128, 136, 134, 128] ++ List.replicate 12 0

/-- The interpreter state after `_patch` has decoded the header of `c2pat0`
against the source `A B C D E`: patch position 7, both back-reference
cursors at 0, nothing written. -/
def c2sA : PState :=
  { src := c2src, spos := 0, scrc := 0, pat := c2pat0, ppos := 7,
    pcrc := crc32 (c2pat0.take 7) 0, tgt := [], tcrc := 0, srel := 0, trel := 0 }

/-- The state after the SourceRead(3) instruction of `c2pat0`. -/
def c2sB : PState :=
  match patchStep c2sA with
  | .ok s => s
  | .error _ => c2sA

/-- The `c6pat` patch with the target-checksum trailer field off by one (and
a zero patch-checksum field): the source checksum still matches, the target
checksum does not. -/
def c4pat : List Nat := c6body ++ le4 0 ++ le4 (crc32 helloBytes 0 + 1) ++ le4 0

/-- A 19-byte patch declaring source_size=1 with no instructions, applied to
an empty source: the post-loop source drain can never reach position 1. -/
def c5pat : List Nat := [66, 80, 83, 49, 129, 128, 128] ++ List.replicate 12 0

/-- A 20-byte patch declaring source_size=0, target_size=0 whose single
instruction word (`(13-1)<<2 | 1 = 49`, encoded `177`) is a TargetRead(13)
that swallows the entire 12-byte trailer as literal data. -/
def c8pat : List Nat := [66, 80, 83, 49, 128, 128, 128, 177] ++ List.replicate 12 0

/-- The periodic extension a self-overlapping TargetCopy produces: relative
to a target snapshot `t` and a back-reference position `rp < t.length`,
byte `j` of the (conceptually unbounded) output is `t[j]` below `rp` and
repeats the window `t[rp..t.length)` with period `t.length - rp` above
it. -/
def runExt (t : List Nat) (rp j : Nat) : Nat :=
  if j < rp then t.getD j 0
  else t.getD (rp + (j - rp) % (t.length - rp)) 0

/-- The `len` bytes a TargetCopy starting at back-reference position `rp`
over the target snapshot `t` must append: the window `t[rp..t.length)`
repeated byte-for-byte with period `t.length - rp`. -/
def overlapRun (t : List Nat) (rp len : Nat) : List Nat :=
  (List.range len).map (fun i => t.getD (rp + i % (t.length - rp)) 0)

/-- Coherence of an interpreter state with the target snapshot `t` and
back-reference position `rp` a TargetCopy started from: everything written
so far follows `runExt`, and the read cursor trails the write position by
exactly the window width. -/
def TCoh (t : List Nat) (rp : Nat) (s : PState) : Prop :=
  rp < t.length ∧ t.length ≤ s.tgt.length ∧
  s.trel + (t.length - rp) = s.tgt.length ∧
  ∀ j, j < s.tgt.length → s.tgt.getD j 0 = runExt t rp j

/-- The patch-stream bookkeeping invariant of `_patch`: the patch list is
never mutated, the position never passes the end, and the running patch
checksum is exactly the CRC-32 of the bytes read so far. -/
def PatInv (pat : List Nat) (s : PState) : Prop :=
  s.pat = pat ∧ s.ppos ≤ pat.length ∧ s.pcrc = crc32 (pat.take s.ppos) 0

/-- A 10-byte target snapshot used to witness the overlap theorem on both
paths: back-reference position 1 gives window width 9 > 8 (the bulk path's
trigger), and a 12-byte copy overlaps the bytes it produces. -/
def c1wit : PState :=
  { src := [], spos := 0, scrc := 0, pat := [], ppos := 0, pcrc := 0,
    tgt := [10, 11, 12, 13, 14, 15, 16, 17, 18, 19], tcrc := 0,
    srel := 0, trel := 1 }

/-- The phase-1 outcome of applying `c6pat` (a well-formed run: the
instruction loop stops exactly at `patch_size - 12`). -/
def c6out : Phase1Out :=
  match patchPhase1 [] c6pat 25 with
  | .ok o => o
  | .error _ => default

/-- The completed outcome of applying `c6pat`. -/
def c6res : PatchResult × PState :=
  match patchModel [] c6pat 25 false with
  | .ok r => r
  | .error _ => default

set_option maxRecDepth 100000

theorem and_facts_hi : ∀ m < 128, (128 + m) &&& 127 = m ∧ (128 + m) &&& 128 = 128 := by decide

theorem and_facts_lo : ∀ m < 128, m &&& 127 = m ∧ m &&& 128 = 0 := by decide

/-- Decoding an encoded VarInt from any accumulator state adds `n` times the
current scale and consumes exactly the encoding. -/
theorem decodeNumberA_encodeNumber (n : Nat) :
    ∀ r v s, decodeNumberA (encodeNumber n ++ r) v s =
      .ok (v + n * s, (encodeNumber n).length) := by
  induction n using Nat.strong_induction_on with
  | _ n ih =>
    intro r v s
    by_cases h : n < 128
    · rw [encodeNumber, dif_pos h]
      simp only [List.cons_append, List.nil_append, decodeNumberA,
        (and_facts_hi n h).1, (and_facts_hi n h).2, List.length_cons,
        List.length_nil]
      norm_num
    · rw [encodeNumber, dif_neg h]
      have hm : n % 128 < 128 := Nat.mod_lt _ (by norm_num)
      simp only [List.cons_append, decodeNumberA, (and_facts_lo _ hm).1,
        (and_facts_lo _ hm).2, ne_eq, not_true_eq_false, if_false,
        List.length_cons, List.append_eq]
      rw [ih (n / 128 - 1) (by have := Nat.div_le_self n 128; omega)]
      simp only [Except.ok.injEq, Prod.mk.injEq]
      have hq : 1 ≤ n / 128 := (Nat.one_le_div_iff (by norm_num)).mpr (by omega)
      obtain ⟨k, hk⟩ : ∃ k, n / 128 = k + 1 := ⟨n / 128 - 1, by omega⟩
      have hd : n % 128 + 128 * (n / 128) = n := Nat.mod_add_div n 128
      rw [Nat.shiftLeft_eq]
      norm_num
      have hn2 : v + n * s = v + (n % 128 + 128 * (k + 1)) * s := by
        have hn : n = n % 128 + 128 * (k + 1) := by omega
        rw [← hn]
      rw [hn2, hk]
      simp only [Nat.add_sub_cancel]
      ring

/-- C7: VarInt decoding follows the cumulative-scale-bias algorithm of
`_decode_number` exactly: for every non-negative integer, decoding the
spec's encoding of `n` yields `n` back (consuming exactly the encoded
bytes). -/
theorem varint_decode_encode_roundtrip :
    ∀ n : Nat, decode_number (encodeNumber n) = .ok (n, (encodeNumber n).length) := by
  intro n
  have h := decodeNumberA_encodeNumber n [] 0 1
  simpa using h

/-- A stream with no terminator byte (high bit never set) always exhausts
the reader: `input.read(1)[0]` raises `IndexError`. -/
theorem decodeNumberA_no_terminator :
    ∀ l : List Nat, (∀ b ∈ l, b &&& 128 = 0) → ∀ d s,
      decodeNumberA l d s = .error .indexError := by
  intro l
  induction l with
  | nil => intro _ d s; rfl
  | cons x rest ih =>
    intro h d s
    have hx : x &&& 128 = 0 := h x (List.mem_cons_self x rest)
    simp only [decodeNumberA, hx, ne_eq, not_true_eq_false, if_false]
    rw [ih (fun b hb => h b (List.mem_cons_of_mem x hb))]

/-- C3 counterexample: on an exhausted stream `_decode_number` raises
`IndexError` (from `b''[0]`), which is not the library's
`InvalidFormatError` kind. -/
theorem decode_number_exhausted_not_format_error :
    decode_number [] = .error .indexError ∧ isFormatError .indexError = false :=
  ⟨rfl, rfl⟩

/-- C3 amended: for every input stream exhausted before a terminator byte
(high bit set) is seen, VarInt decoding fails with an `IndexError` — an
exception outside the library's error taxonomy, not its format-error
kind. -/
theorem decode_number_exhausted_index_error (l : List Nat)
    (h : ∀ b ∈ l, b &&& 128 = 0) : decode_number l = .error .indexError :=
  decodeNumberA_no_terminator l h 0 1

theorem decode_number_exhausted_index_error_witness :
    (∀ b ∈ [5, 0], b &&& 128 = 0) ∧ decode_number [5, 0] = .error .indexError :=
  ⟨by decide, decode_number_exhausted_index_error [5, 0] (by decide)⟩

/-- C2 counterexample: on the 5-byte source `A B C D E`, the patch
SourceRead(3); SourceCopy(length=2, delta=-3) does not produce
`A B C A B`: the source back-reference cursor starts at 0 (independent of
the sequential cursor, which is at 3), so the relative seek by -3 moves it
to -3 and the underlying stream raises `OSError`. -/
theorem sourceCopy_scenario_neg_delta_fails :
    patchModel c2src c2patNeg 22 true = .error (.step .osError) := by decide

/-- C2 amended: with delta 0 instead of -3 (the back-reference cursor is
independent of the sequential source cursor and starts at 0, so the offset
that reaches `A` is 0, not `-3`), the scenario holds: SourceRead(3) copies
`A B C` and advances the sequential source cursor to 3, the SourceCopy
reads `A B` at back-reference position 0 (leaving that cursor at 2), and
the target is `A B C A B`. -/
theorem sourceCopy_scenario_delta_zero :
    (patchModel c2src c2pat0 22 true).map (fun x => x.2.tgt) = .ok [65, 66, 67, 65, 66] ∧
    (patchStep c2sA).map (fun s => (s.spos, s.tgt, s.srel)) = .ok (3, [65, 66, 67], 0) ∧
    patchStep c2sA = .ok c2sB ∧
    (patchStep c2sB).map (fun s => (s.tgt, s.srel, s.spos)) =
      .ok ([65, 66, 67, 65, 66], 2, 3) := by decide

/-- C4: at a patch whose target checksum field mismatches (while the source
checksum matches), the raised `ChecksumFailure` carries both the computed
and the expected value, but its message labels the field `Source checksum`
(the source's line 196 copy-pastes the source-field message), so it does
not identify which of the three fields failed. -/
theorem checksum_failure_mislabels_target_field :
    patchModel [] c4pat 25 false =
      .error (.checksumFailure "Source checksum" (crc32 helloBytes 0)
        (crc32 helloBytes 0 + 1)) := by decide

/-- C5: at a source shorter than the declared `source_size` the
post-instruction-loop drain never advances (reads past end of stream return
nothing), so the `while state.source.position < source_size` loop runs
forever: `apply` does not terminate on this input. -/
theorem source_drain_diverges_on_short_source :
    sourceDrainLoopAux 2 1
      { src := [], spos := 0, scrc := 0, pat := [], ppos := 0, pcrc := 0,
        tgt := [], tcrc := 0, srel := 0, trel := 0 } = none ∧
    patchModel [] c5pat 19 false = .error (.step .diverge) := by decide

/-- C6: the TargetRead(5) `hello` patch with correct trailer checksums
applies cleanly: the target bytes are `hello`, and each of the three
computed checksums equals the trailer value `PatchResult` carries. -/
theorem targetread_hello_scenario :
    (patchModel [] c6pat 25 false).map
      (fun x => (x.2.tgt, x.1.source_checksum, x.2.scrc)) =
      .ok (helloBytes, crc32 [] 0, crc32 [] 0) ∧
    (patchModel [] c6pat 25 false).map
      (fun x => (x.1.target_checksum, x.2.tcrc, x.1.patch_checksum, x.2.pcrc)) =
      .ok (crc32 helloBytes 0, crc32 helloBytes 0, crc32 c6head 0, crc32 c6head 0) := by
  exact ⟨by decide, by decide⟩

/-- C8 counterexample: a completed apply run (skip flag set) whose single
TargetRead instruction swallows the 12-byte trailer as literal data: the
computed patch checksum covers all 20 bytes of the patch file, including
the final 4-byte patch-checksum field, and differs from the checksum of
the first `patch_size - 4` bytes that the claim prescribes. -/
theorem patch_checksum_can_cover_final_field :
    (patchModel [] c8pat 20 true).map (fun x => x.2.pcrc) = .ok (crc32 c8pat 0) ∧
    (crc32 c8pat 0 == crc32 (c8pat.take 16) 0) = false := by decide

/-- The only error `_decode_number` can raise is the `IndexError` of an
exhausted stream. -/
theorem decodeNumberA_error_eq (l : List Nat) :
    ∀ d sh e, decodeNumberA l d sh = .error e → e = .indexError := by
  induction l with
  | nil =>
    intro d sh e h
    simpa [decodeNumberA] using h.symm
  | cons x rest ih =>
    intro d sh e h
    simp only [decodeNumberA] at h
    split at h
    · exact Except.noConfusion h
    · split at h
      · exact Except.noConfusion h
      · next e1 heq =>
        cases h
        exact ih _ _ _ heq

/-- The only error `_decode_number` can raise is the `IndexError` of an
exhausted stream (wrapper for the entry point). -/
theorem decode_number_error_eq (l : List Nat) (e : StepError) :
    decode_number l = .error e → e = .indexError :=
  decodeNumberA_error_eq l 0 1 e

/-- The only error a relative seek can raise is `OSError` (negative target
offset). -/
theorem seekChecked_error_eq (cur : Nat) (delta : Int) (e : StepError) :
    seekChecked cur delta = .error e → e = .osError := by
  intro h
  simp only [seekChecked] at h
  split at h
  · cases h; rfl
  · exact Except.noConfusion h

/-- C10: the `else` branch raising `InvalidFormatError('Invalid command
...')` is unreachable in both `_patch` and `dis`: the instruction kind is
the decoded opcode word masked with 3, so it is always one of 0, 1, 2, 3
and every decoded instruction is dispatched to one of the four defined
kinds. -/
theorem instruction_kind_always_recognized :
    (∀ data : Nat, commandOf data < 4) ∧
    (∀ s : PState, hitsInvalidCommand (patchStep s) = false) ∧
    (∀ d : DisState, hitsInvalidCommand (disStep d) = false) := by
  refine ⟨fun data => Nat.lt_succ_of_le Nat.and_le_right, fun s => ?_, fun d => ?_⟩
  · unfold patchStep
    cases hd : decode_number (s.pat.drop s.ppos) with
    | error e =>
      have he := decode_number_error_eq _ _ hd
      subst he; rfl
    | ok p =>
      obtain ⟨data, k⟩ := p
      have hc : commandOf data < 4 := Nat.lt_succ_of_le Nat.and_le_right
      dsimp only
      repeat' split
      any_goals rfl
      any_goals (exfalso; omega)
      all_goals
        rename_i heq
        first
          | (have he := decode_number_error_eq _ _ heq; subst he; rfl)
          | (have he := seekChecked_error_eq _ _ _ heq; subst he; rfl)
  · unfold disStep
    cases hd : decode_number (d.pat.drop d.pos) with
    | error e =>
      have he := decode_number_error_eq _ _ hd
      subst he; rfl
    | ok p =>
      obtain ⟨data, k⟩ := p
      have hc : commandOf data < 4 := Nat.lt_succ_of_le Nat.and_le_right
      dsimp only
      repeat' split
      any_goals rfl
      any_goals (exfalso; omega)
      all_goals
        rename_i heq
        have he := decode_number_error_eq _ _ heq
        subst he; rfl

/-- C9: with the checksum-skip flag set no mismatch raises — `_patch` never
returns the `ChecksumFailure` outcome — and a run over a patch whose target
checksum field mismatches still completes, returning a `PatchResult` whose
`source_checksum`/`target_checksum`/`patch_checksum` fields carry the three
trailer values for the caller to inspect. -/
theorem skip_checksum_never_raises_checksum_failure :
    (∀ src pat psize, isChecksumFailureE (patchModel src pat psize true) = false) ∧
    (patchModel [] c4pat 25 true).map
      (fun x => (x.2.tgt, x.1.source_checksum, x.1.target_checksum, x.1.patch_checksum)) =
      .ok (helloBytes, 0, crc32 helloBytes 0 + 1, 0) := by
  constructor
  · intro src pat psize
    unfold patchModel
    cases hph : patchPhase1 src pat psize with
    | error e => rfl
    | ok o =>
      unfold patchVerify
      simp [isChecksumFailureE]
  · decide

/-- The periodic extension repeats with period `t.length - rp` above
`rp`. -/
theorem runExt_period (t : List Nat) (rp x : Nat) (hrp : rp < t.length)
    (hx : rp ≤ x) : runExt t rp (x + (t.length - rp)) = runExt t rp x := by
  unfold runExt
  rw [if_neg (by omega), if_neg (by omega)]
  have h1 : x + (t.length - rp) - rp = (x - rp) + (t.length - rp) := by omega
  rw [h1, Nat.add_mod_right]

/-- A read through `target_rel` of at most the window width returns exactly
the requested bytes. -/
theorem tcoh_chunk_len (t : List Nat) (rp : Nat) (s : PState) (h : TCoh t rp s)
    (k : Nat) (hk : k ≤ t.length - rp) : (readAt s.tgt s.trel k).length = k := by
  obtain ⟨h1, h2, h3, h4⟩ := h
  simp only [readAt, List.length_take, List.length_drop]
  omega

/-- Reading `k ≤ t.length - rp` bytes at the back-reference cursor and
appending them to the target preserves coherence and grows the target by
exactly `k`. -/
theorem tcoh_write (t : List Nat) (rp : Nat) (s : PState) (k : Nat)
    (h : TCoh t rp s) (hk : k ≤ t.length - rp) :
    TCoh t rp (writeTarget (readTargetRel s k).2 (readTargetRel s k).1) ∧
    (writeTarget (readTargetRel s k).2 (readTargetRel s k).1).tgt.length
      = s.tgt.length + k := by
  have hck := tcoh_chunk_len t rp s h k hk
  obtain ⟨hrp, hle, hpos, hcoh⟩ := h
  simp only [readTargetRel, writeTarget]
  constructor
  · refine ⟨hrp, ?_, ?_, ?_⟩
    · simp only [List.length_append]
      omega
    · simp only [List.length_append, hck]
      omega
    · intro j hj
      simp only [List.length_append, hck] at hj
      by_cases hjl : j < s.tgt.length
      · rw [List.getD_append _ _ _ _ hjl]
        exact hcoh j hjl
      · have hjr : s.tgt.length ≤ j := by omega
        rw [List.getD_append_right _ _ _ _ hjr]
        set i := j - s.tgt.length with hi
        have hik : i < k := by omega
        have hik2 : i < (readAt s.tgt s.trel k).length := by omega
        have htr : s.trel + i < s.tgt.length := by omega
        have hchunk : (readAt s.tgt s.trel k).getD i 0 = s.tgt.getD (s.trel + i) 0 := by
          rw [List.getD_eq_getElem _ _ hik2, List.getD_eq_getElem _ _ htr]
          simp only [readAt]
          rw [List.getElem_take, List.getElem_drop]
        rw [hchunk, hcoh _ htr]
        have hj2 : j = (s.trel + i) + (t.length - rp) := by omega
        rw [hj2]
        exact (runExt_period t rp (s.trel + i) hrp (by omega)).symm
  · simp only [List.length_append, hck]

/-- The byte-by-byte TargetCopy loop preserves coherence and appends one
byte per iteration. -/
theorem targetCopyByteLoop_run (t : List Nat) (rp : Nat) :
    ∀ (len : Nat) (s : PState), TCoh t rp s →
      TCoh t rp (targetCopyByteLoop s len) ∧
      (targetCopyByteLoop s len).tgt.length = s.tgt.length + len := by
  intro len
  induction len with
  | zero => intro s h; exact ⟨h, rfl⟩
  | succ n ih =>
    intro s h
    have hgap : 1 ≤ t.length - rp := by
      obtain ⟨h1, -, -, -⟩ := h
      omega
    have hstep := tcoh_write t rp s 1 h hgap
    have hunfold : targetCopyByteLoop s (n + 1) =
        targetCopyByteLoop
          (writeTarget (readTargetRel s 1).2 (readTargetRel s 1).1) n := rfl
    rw [hunfold]
    obtain ⟨ih1, ih2⟩ := ih _ hstep.1
    refine ⟨ih1, ?_⟩
    rw [ih2, hstep.2]
    omega

/-- The bulk-buffered TargetCopy loop preserves coherence whenever the
buffer size does not exceed the window width, and appends exactly `len`
bytes (fuel `len` suffices for a positive buffer size). -/
theorem bufferedCopyTargetRelAux_run (t : List Nat) (rp bufSize : Nat)
    (hb1 : 1 ≤ bufSize) (hble : bufSize ≤ t.length - rp) :
    ∀ (fuel len : Nat) (s : PState), len ≤ fuel → TCoh t rp s →
      TCoh t rp (bufferedCopyTargetRelAux fuel s len bufSize) ∧
      (bufferedCopyTargetRelAux fuel s len bufSize).tgt.length
        = s.tgt.length + len := by
  intro fuel
  induction fuel with
  | zero =>
    intro len s hle h
    have h0 : len = 0 := by omega
    subst h0
    exact ⟨h, rfl⟩
  | succ f ih =>
    intro len s hle h
    by_cases h0 : len = 0
    · subst h0
      exact ⟨h, rfl⟩
    · have hk : min len bufSize ≤ t.length - rp :=
        le_trans (min_le_right _ _) hble
      have hstep := tcoh_write t rp s (min len bufSize) h hk
      have hunfold : bufferedCopyTargetRelAux (f + 1) s len bufSize =
          bufferedCopyTargetRelAux f
            (writeTarget (readTargetRel s (min len bufSize)).2
              (readTargetRel s (min len bufSize)).1) (len - bufSize) bufSize := by
        simp only [bufferedCopyTargetRelAux, if_neg h0]
      rw [hunfold]
      obtain ⟨c1, c2⟩ := ih (len - bufSize) _ (by omega) hstep.1
      refine ⟨c1, ?_⟩
      rw [c2, hstep.2]
      omega

/-- A coherent state that has grown by `len` bytes is the snapshot followed
by the periodic run. -/
theorem tcoh_eq_append_run (t : List Nat) (rp len : Nat) (s : PState)
    (h : TCoh t rp s) (hlen : s.tgt.length = t.length + len) :
    s.tgt = t ++ overlapRun t rp len := by
  obtain ⟨hrp, hle, hpos, hcoh⟩ := h
  apply List.ext_getElem
  · simp [overlapRun, hlen]
  · intro n h1 h2
    have hget := hcoh n h1
    rw [List.getD_eq_getElem _ _ h1] at hget
    rw [hget]
    by_cases hn : n < t.length
    · unfold runExt
      rw [List.getElem_append_left hn]
      by_cases hnrp : n < rp
      · rw [if_pos hnrp, List.getD_eq_getElem _ _ hn]
      · rw [if_neg hnrp, Nat.mod_eq_of_lt (by omega)]
        have he : rp + (n - rp) = n := by omega
        rw [he, List.getD_eq_getElem _ _ hn]
    · have hnr : t.length ≤ n := by omega
      have hi : n - t.length < len := by
        simp only [List.length_append, hlen] at h2 ⊢
        omega
      rw [List.getElem_append_right hnr]
      have hlt : n - t.length < (overlapRun t rp len).length := by
        simp only [overlapRun, List.length_map, List.length_range]
        omega
      have hrun : (overlapRun t rp len)[n - t.length] =
          t.getD (rp + (n - t.length) % (t.length - rp)) 0 := by
        simp [overlapRun]
      rw [hrun]
      unfold runExt
      rw [if_neg (by omega)]
      have he : n - rp = (n - t.length) + (t.length - rp) := by omega
      rw [he, Nat.add_mod_right]

/-- A state about to execute a TargetCopy (target snapshot `t`, seeked
back-reference cursor `rp < t.length`) is coherent. -/
theorem tcoh_init (t : List Nat) (rp : Nat) (hrp : rp < t.length) (s : PState)
    (h1 : s.tgt = t) (h2 : s.trel = rp) : TCoh t rp s := by
  refine ⟨hrp, by rw [h1], by rw [h1, h2]; omega, ?_⟩
  intro j hj
  rw [h1] at hj ⊢
  unfold runExt
  by_cases hjr : j < rp
  · rw [if_pos hjr]
  · rw [if_neg hjr, Nat.mod_eq_of_lt (by omega)]
    have he : rp + (j - rp) = j := by omega
    rw [he]

/-- C1: a TargetCopy whose back-reference range starts inside the already
written target and overlaps the bytes being produced by that same
instruction appends exactly the periodic run, byte for byte, on the
byte-by-byte fallback path, and equally on the bulk-buffered path under its
trigger condition (write position minus back-reference offset greater
than 8, with the buffer size `min(position - offset, 8192)` the source
passes). -/
theorem targetCopy_overlap_reproduces_run (s : PState) (len : Nat)
    (h : s.trel < s.tgt.length) (hov : s.tgt.length < s.trel + len) :
    (targetCopyByteLoop s len).tgt = s.tgt ++ overlapRun s.tgt s.trel len ∧
    (8 < s.tgt.length - s.trel →
      (bufferedCopyTargetRel s len (min (s.tgt.length - s.trel) 8192)).tgt =
        s.tgt ++ overlapRun s.tgt s.trel len) := by
  have hcoh := tcoh_init s.tgt s.trel h s rfl rfl
  constructor
  · obtain ⟨c1, c2⟩ := targetCopyByteLoop_run s.tgt s.trel len s hcoh
    exact tcoh_eq_append_run _ _ len _ c1 (by omega)
  · intro h8
    have hb1 : 1 ≤ min (s.tgt.length - s.trel) 8192 := by omega
    have hble : min (s.tgt.length - s.trel) 8192 ≤ s.tgt.length - s.trel :=
      min_le_left _ _
    obtain ⟨c1, c2⟩ := bufferedCopyTargetRelAux_run s.tgt s.trel _ hb1 hble
      len len s (le_refl len) hcoh
    simp only [bufferedCopyTargetRel]
    exact tcoh_eq_append_run _ _ len _ c1 (by omega)

theorem targetCopy_overlap_reproduces_run_witness :
    (c1wit.trel < c1wit.tgt.length ∧ c1wit.tgt.length < c1wit.trel + 12) ∧
    ((targetCopyByteLoop c1wit 12).tgt =
        c1wit.tgt ++ overlapRun c1wit.tgt c1wit.trel 12 ∧
      (8 < c1wit.tgt.length - c1wit.trel →
        (bufferedCopyTargetRel c1wit 12 (min (c1wit.tgt.length - c1wit.trel) 8192)).tgt =
          c1wit.tgt ++ overlapRun c1wit.tgt c1wit.trel 12)) :=
  ⟨⟨by decide, by decide⟩,
    targetCopy_overlap_reproduces_run c1wit 12 (by decide) (by decide)⟩

/-- Checksums accumulate across reads: folding `b` after `a` equals folding
`a ++ b`. -/
theorem crc32_append (a b : List Nat) (c : Nat) :
    crc32 (a ++ b) c = crc32 b (crc32 a c) := by
  unfold crc32
  rw [List.foldl_append, Nat.xor_cancel_right]

theorem crcRound_lt (c : Nat) (h : c < 2 ^ 32) : crcRound c < 2 ^ 32 := by
  unfold crcRound
  have hs : c >>> 1 < 2 ^ 32 :=
    lt_of_le_of_lt (by rw [Nat.shiftRight_eq_div_pow]; exact Nat.div_le_self c 2) h
  split
  · exact Nat.xor_lt_two_pow hs (by norm_num)
  · exact hs

theorem crcRounds_lt : ∀ (k c : Nat), c < 2 ^ 32 → crcRounds k c < 2 ^ 32
  | 0, _, h => h
  | k + 1, c, h => crcRounds_lt k (crcRound c) (crcRound_lt c h)

theorem crc32Update_lt (c b : Nat) : crc32Update c b < 2 ^ 32 := by
  unfold crc32Update
  apply crcRounds_lt
  apply Nat.xor_lt_two_pow
  · have h : c &&& 0xFFFFFFFF ≤ 0xFFFFFFFF := Nat.and_le_right
    omega
  · have h : b &&& 0xFF ≤ 0xFF := Nat.and_le_right
    omega

theorem crc32_foldl_lt :
    ∀ (l : List Nat) (x : Nat), x < 2 ^ 32 → l.foldl crc32Update x < 2 ^ 32
  | [], _, h => h
  | b :: rest, x, _ => crc32_foldl_lt rest (crc32Update x b) (crc32Update_lt x b)

/-- A CRC-32 value stays 32 bits wide. -/
theorem crc32_lt (l : List Nat) (c : Nat) (h : c < 2 ^ 32) : crc32 l c < 2 ^ 32 := by
  unfold crc32
  apply Nat.xor_lt_two_pow _ (by norm_num)
  exact crc32_foldl_lt l _ (Nat.xor_lt_two_pow h (by norm_num))

/-- The `& 0xffffffff` of `_ReadState` is the identity on 32-bit values. -/
theorem and_mask_of_lt (x : Nat) (h : x < 2 ^ 32) : x &&& 0xFFFFFFFF = x := by
  have h1 := Nat.and_pow_two_sub_one_eq_mod x 32
  rw [show (0xFFFFFFFF : Nat) = 2 ^ 32 - 1 from by norm_num, h1,
    Nat.mod_eq_of_lt h]

theorem take_min_length (l : List Nat) (n : Nat) :
    l.take (min n l.length) = l.take n := by
  rcases le_total n l.length with h | h
  · rw [min_eq_left h]
  · rw [min_eq_right h, List.take_length, List.take_of_length_le h]

/-- Every read through the patch cursor preserves the patch-stream
invariant. -/
theorem readPatch_patinv (pat : List Nat) (s : PState) (n : Nat)
    (h : PatInv pat s) : PatInv pat (readPatch s n).2 := by
  obtain ⟨h1, h2, h3⟩ := h
  refine ⟨h1, ?_, ?_⟩
  · simp only [readPatch, readAt, h1, List.length_take, List.length_drop]
    omega
  · simp only [readPatch, h1, h3]
    have hsplit : pat.take (s.ppos + (readAt pat s.ppos n).length) =
        pat.take s.ppos ++ readAt pat s.ppos n := by
      rw [List.take_add]
      congr 1
      have h4 := take_min_length (pat.drop s.ppos) n
      simpa [readAt, List.length_drop] using h4
    rw [hsplit, crc32_append]
    exact and_mask_of_lt _ (crc32_lt _ _ (crc32_lt _ _ (by norm_num)))

/-- Decoding a VarInt through the patch cursor preserves the invariant. -/
theorem decodePatchNum_patinv (pat : List Nat) (s : PState) (v : Nat)
    (s2 : PState) (h : PatInv pat s) (heq : decodePatchNum s = .ok (v, s2)) :
    PatInv pat s2 := by
  unfold decodePatchNum at heq
  split at heq
  · exact Except.noConfusion heq
  · cases heq
    exact readPatch_patinv pat s _ h

/-- A state with the same patch cursor fields satisfies the same patch
invariant. -/
theorem patinv_of_fields (pat : List Nat) (s s2 : PState) (h : PatInv pat s)
    (ha : s2.pat = s.pat) (hb : s2.ppos = s.ppos) (hc : s2.pcrc = s.pcrc) :
    PatInv pat s2 := by
  obtain ⟨h1, h2, h3⟩ := h
  refine ⟨ha.trans h1, ?_, ?_⟩
  · rw [hb]; exact h2
  · rw [hc, hb]; exact h3

/-- A source-to-target copy never touches the patch cursor. -/
theorem bufferedCopySourceAux_patch_fields :
    ∀ (fuel len : Nat) (s : PState),
      (bufferedCopySourceAux fuel s len).pat = s.pat ∧
      (bufferedCopySourceAux fuel s len).ppos = s.ppos ∧
      (bufferedCopySourceAux fuel s len).pcrc = s.pcrc := by
  intro fuel
  induction fuel with
  | zero => intro len s; exact ⟨rfl, rfl, rfl⟩
  | succ f ih =>
    intro len s
    by_cases h0 : len = 0
    · subst h0; exact ⟨rfl, rfl, rfl⟩
    · have hunfold : bufferedCopySourceAux (f + 1) s len =
          bufferedCopySourceAux f
            (writeTarget (readSource s (min len 8192)).2
              (readSource s (min len 8192)).1) (len - 8192) := by
        simp only [bufferedCopySourceAux, if_neg h0]
      rw [hunfold]
      obtain ⟨a, b, c⟩ := ih (len - 8192) _
      exact ⟨a.trans rfl, b.trans rfl, c.trans rfl⟩

/-- A back-reference source copy never touches the patch cursor. -/
theorem bufferedCopySourceRelAux_patch_fields :
    ∀ (fuel len : Nat) (s : PState),
      (bufferedCopySourceRelAux fuel s len).pat = s.pat ∧
      (bufferedCopySourceRelAux fuel s len).ppos = s.ppos ∧
      (bufferedCopySourceRelAux fuel s len).pcrc = s.pcrc := by
  intro fuel
  induction fuel with
  | zero => intro len s; exact ⟨rfl, rfl, rfl⟩
  | succ f ih =>
    intro len s
    by_cases h0 : len = 0
    · subst h0; exact ⟨rfl, rfl, rfl⟩
    · have hunfold : bufferedCopySourceRelAux (f + 1) s len =
          bufferedCopySourceRelAux f
            (writeTarget (readSourceRel s (min len 8192)).2
              (readSourceRel s (min len 8192)).1) (len - 8192) := by
        simp only [bufferedCopySourceRelAux, if_neg h0]
      rw [hunfold]
      obtain ⟨a, b, c⟩ := ih (len - 8192) _
      exact ⟨a.trans rfl, b.trans rfl, c.trans rfl⟩

/-- A bulk target self-copy never touches the patch cursor. -/
theorem bufferedCopyTargetRelAux_patch_fields :
    ∀ (fuel len bufSize : Nat) (s : PState),
      (bufferedCopyTargetRelAux fuel s len bufSize).pat = s.pat ∧
      (bufferedCopyTargetRelAux fuel s len bufSize).ppos = s.ppos ∧
      (bufferedCopyTargetRelAux fuel s len bufSize).pcrc = s.pcrc := by
  intro fuel
  induction fuel with
  | zero => intro len bufSize s; exact ⟨rfl, rfl, rfl⟩
  | succ f ih =>
    intro len bufSize s
    by_cases h0 : len = 0
    · subst h0; exact ⟨rfl, rfl, rfl⟩
    · have hunfold : bufferedCopyTargetRelAux (f + 1) s len bufSize =
          bufferedCopyTargetRelAux f
            (writeTarget (readTargetRel s (min len bufSize)).2
              (readTargetRel s (min len bufSize)).1) (len - bufSize) bufSize := by
        simp only [bufferedCopyTargetRelAux, if_neg h0]
      rw [hunfold]
      obtain ⟨a, b, c⟩ := ih (len - bufSize) bufSize _
      exact ⟨a.trans rfl, b.trans rfl, c.trans rfl⟩

/-- The byte-by-byte target self-copy never touches the patch cursor. -/
theorem targetCopyByteLoop_patch_fields :
    ∀ (len : Nat) (s : PState),
      (targetCopyByteLoop s len).pat = s.pat ∧
      (targetCopyByteLoop s len).ppos = s.ppos ∧
      (targetCopyByteLoop s len).pcrc = s.pcrc := by
  intro len
  induction len with
  | zero => intro s; exact ⟨rfl, rfl, rfl⟩
  | succ n ih =>
    intro s
    obtain ⟨a, b, c⟩ :=
      ih (writeTarget (readTargetRel s 1).2 (readTargetRel s 1).1)
    exact ⟨a.trans rfl, b.trans rfl, c.trans rfl⟩

/-- The source drain pass never touches the patch cursor. -/
theorem sourceDrainPassAux_patch_fields :
    ∀ (fuel remaining : Nat) (s : PState),
      (sourceDrainPassAux fuel s remaining).pat = s.pat ∧
      (sourceDrainPassAux fuel s remaining).ppos = s.ppos ∧
      (sourceDrainPassAux fuel s remaining).pcrc = s.pcrc := by
  intro fuel
  induction fuel with
  | zero => intro remaining s; exact ⟨rfl, rfl, rfl⟩
  | succ f ih =>
    intro remaining s
    by_cases h0 : remaining = 0
    · subst h0; exact ⟨rfl, rfl, rfl⟩
    · have hunfold : sourceDrainPassAux (f + 1) s remaining =
          sourceDrainPassAux f (readSource s (min remaining 8192)).2
            (remaining - 8192) := by
        simp only [sourceDrainPassAux, if_neg h0]
      rw [hunfold]
      obtain ⟨a, b, c⟩ := ih (remaining - 8192) _
      exact ⟨a.trans rfl, b.trans rfl, c.trans rfl⟩

/-- The source drain loop never touches the patch cursor. -/
theorem sourceDrainLoopAux_patch_fields :
    ∀ (fuel ssize : Nat) (s s2 : PState),
      sourceDrainLoopAux fuel ssize s = some s2 →
      s2.pat = s.pat ∧ s2.ppos = s.ppos ∧ s2.pcrc = s.pcrc := by
  intro fuel
  induction fuel with
  | zero =>
    intro ssize s s2 heq
    simp only [sourceDrainLoopAux] at heq
    split at heq
    · exact Option.noConfusion heq
    · cases heq; exact ⟨rfl, rfl, rfl⟩
  | succ f ih =>
    intro ssize s s2 heq
    simp only [sourceDrainLoopAux] at heq
    split at heq
    · split at heq
      · exact Option.noConfusion heq
      · obtain ⟨a, b, c⟩ := ih ssize _ s2 heq
        obtain ⟨a2, b2, c2⟩ :=
          sourceDrainPassAux_patch_fields (ssize - s.spos) (ssize - s.spos) s
        exact ⟨a.trans a2, b.trans b2, c.trans c2⟩
    · cases heq; exact ⟨rfl, rfl, rfl⟩

/-- The target pad pass never touches the patch cursor. -/
theorem targetPadPassAux_patch_fields :
    ∀ (fuel remaining : Nat) (s : PState),
      (targetPadPassAux fuel s remaining).pat = s.pat ∧
      (targetPadPassAux fuel s remaining).ppos = s.ppos ∧
      (targetPadPassAux fuel s remaining).pcrc = s.pcrc := by
  intro fuel
  induction fuel with
  | zero => intro remaining s; exact ⟨rfl, rfl, rfl⟩
  | succ f ih =>
    intro remaining s
    by_cases h0 : remaining = 0
    · subst h0; exact ⟨rfl, rfl, rfl⟩
    · have hunfold : targetPadPassAux (f + 1) s remaining =
          targetPadPassAux f
            (writeTarget s (List.replicate (min remaining 8192) 0))
            (remaining - 8192) := by
        simp only [targetPadPassAux, if_neg h0]
      rw [hunfold]
      obtain ⟨a, b, c⟩ := ih (remaining - 8192) _
      exact ⟨a.trans rfl, b.trans rfl, c.trans rfl⟩

/-- The target pad loop never touches the patch cursor. -/
theorem targetPadLoopAux_patch_fields :
    ∀ (fuel tsize : Nat) (s : PState),
      (targetPadLoopAux fuel tsize s).pat = s.pat ∧
      (targetPadLoopAux fuel tsize s).ppos = s.ppos ∧
      (targetPadLoopAux fuel tsize s).pcrc = s.pcrc := by
  intro fuel
  induction fuel with
  | zero => intro tsize s; exact ⟨rfl, rfl, rfl⟩
  | succ f ih =>
    intro tsize s
    by_cases h0 : s.tgt.length < tsize
    · have hunfold : targetPadLoopAux (f + 1) tsize s =
          targetPadLoopAux f tsize
            (targetPadPassAux (tsize - s.tgt.length) s (tsize - s.tgt.length)) := by
        simp only [targetPadLoopAux, if_pos h0]
      rw [hunfold]
      obtain ⟨a, b, c⟩ :=
        ih tsize (targetPadPassAux (tsize - s.tgt.length) s (tsize - s.tgt.length))
      obtain ⟨a2, b2, c2⟩ :=
        targetPadPassAux_patch_fields (tsize - s.tgt.length) (tsize - s.tgt.length) s
      exact ⟨a.trans a2, b.trans b2, c.trans c2⟩
    · have hunfold : targetPadLoopAux (f + 1) tsize s = s := by
        simp only [targetPadLoopAux, if_neg h0]
      rw [hunfold]
      exact ⟨rfl, rfl, rfl⟩

/-- The TargetRead literal copy reads the patch only through the
checksumming cursor: the invariant is preserved. -/
theorem bufferedCopyPatchAux_patinv (pat : List Nat) :
    ∀ (fuel len : Nat) (s : PState), PatInv pat s →
      PatInv pat (bufferedCopyPatchAux fuel s len) := by
  intro fuel
  induction fuel with
  | zero => intro len s h; exact h
  | succ f ih =>
    intro len s h
    by_cases h0 : len = 0
    · subst h0; exact h
    · have hunfold : bufferedCopyPatchAux (f + 1) s len =
          bufferedCopyPatchAux f
            (writeTarget (readPatch s (min len 8192)).2
              (readPatch s (min len 8192)).1) (len - 8192) := by
        simp only [bufferedCopyPatchAux, if_neg h0]
      rw [hunfold]
      apply ih
      have h1 := readPatch_patinv pat s (min len 8192) h
      exact patinv_of_fields pat _ _ h1 rfl rfl rfl

/-- Every successful instruction dispatch preserves the patch-stream
invariant (the opcode word and any delta word are consumed through the
checksumming cursor; TargetRead folds its literal payload too). -/
theorem patchStep_patinv (pat : List Nat) (s s2 : PState) (h : PatInv pat s)
    (heq : patchStep s = .ok s2) : PatInv pat s2 := by
  unfold patchStep at heq
  cases hd : decode_number (s.pat.drop s.ppos) with
  | error e => rw [hd] at heq; exact Except.noConfusion heq
  | ok p =>
    obtain ⟨data, k⟩ := p
    rw [hd] at heq
    dsimp only at heq
    have h1 : PatInv pat (readPatch s k).2 := readPatch_patinv pat s k h
    split at heq
    · cases heq
      obtain ⟨a, b, c⟩ := bufferedCopySourceAux_patch_fields _ _ _
      exact patinv_of_fields pat _ _ h1 a b c
    · split at heq
      · cases heq
        exact bufferedCopyPatchAux_patinv pat _ _ _ h1
      · split at heq
        · split at heq
          · exact Except.noConfusion heq
          · rename_i d2 k2 hdec
            split at heq
            · exact Except.noConfusion heq
            · rename_i np hseek
              cases heq
              have h2 := readPatch_patinv pat (readPatch s k).2 k2 h1
              have h3 := patinv_of_fields pat _ _ h2 rfl rfl rfl
              obtain ⟨a, b, c⟩ := bufferedCopySourceRelAux_patch_fields _ _ _
              exact patinv_of_fields pat _ _ h3 a b c
        · split at heq
          · split at heq
            · exact Except.noConfusion heq
            · rename_i d2 k2 hdec
              split at heq
              · exact Except.noConfusion heq
              · rename_i np hseek
                split at heq
                · cases heq
                  have h2 := readPatch_patinv pat (readPatch s k).2 k2 h1
                  have h3 := patinv_of_fields pat _ _ h2 rfl rfl rfl
                  obtain ⟨a, b, c⟩ := bufferedCopyTargetRelAux_patch_fields _ _ _ _
                  exact patinv_of_fields pat _ _ h3 a b c
                · cases heq
                  have h2 := readPatch_patinv pat (readPatch s k).2 k2 h1
                  have h3 := patinv_of_fields pat _ _ h2 rfl rfl rfl
                  obtain ⟨a, b, c⟩ := targetCopyByteLoop_patch_fields _ _
                  exact patinv_of_fields pat _ _ h3 a b c
          · exact Except.noConfusion heq

/-- The instruction loop preserves the patch-stream invariant. -/
theorem patchLoopAux_patinv (pat : List Nat) (pe : Nat) :
    ∀ (fuel : Nat) (s s2 : PState), PatInv pat s →
      patchLoopAux fuel pe s = .ok s2 → PatInv pat s2 := by
  intro fuel
  induction fuel with
  | zero =>
    intro s s2 h heq
    simp only [patchLoopAux] at heq
    split at heq
    · exact Except.noConfusion heq
    · cases heq; exact h
  | succ f ih =>
    intro s s2 h heq
    simp only [patchLoopAux] at heq
    split at heq
    · split at heq
      · exact Except.noConfusion heq
      · rename_i s3 hstep
        exact ih s3 s2 (patchStep_patinv pat s s3 h hstep) heq
    · cases heq; exact h

/-- All of `_patch` before verification preserves the patch-stream
invariant, starting from the zero state. -/
theorem patchPhase1_patinv (src pat : List Nat) (psize : Nat) (out : Phase1Out)
    (heq : patchPhase1 src pat psize = .ok out) : PatInv pat out.st := by
  unfold patchPhase1 at heq
  dsimp only at heq
  have h0 : PatInv pat
      { src := src, spos := 0, scrc := 0, pat := pat, ppos := 0, pcrc := 0,
        tgt := [], tcrc := 0, srel := 0, trel := 0 } :=
    ⟨rfl, Nat.zero_le _, by simp [crc32]⟩
  have h1 := readPatch_patinv pat _ 4 h0
  split at heq
  · exact Except.noConfusion heq
  · split at heq
    · exact Except.noConfusion heq
    · rename_i source_size s2 hd1
      have h2 := decodePatchNum_patinv pat _ source_size s2 h1 hd1
      split at heq
      · exact Except.noConfusion heq
      · rename_i target_size s3 hd2
        have h3 := decodePatchNum_patinv pat _ target_size s3 h2 hd2
        split at heq
        · exact Except.noConfusion heq
        · rename_i metadata_size s4 hd3
          have h4 := decodePatchNum_patinv pat _ metadata_size s4 h3 hd3
          have h5 := readPatch_patinv pat s4 metadata_size h4
          split at heq
          · exact Except.noConfusion heq
          · rename_i s6 hloop
            have h6 := patchLoopAux_patinv pat (psize - 12) _ _ s6 h5 hloop
            split at heq
            · exact Except.noConfusion heq
            · rename_i s7 hdrain
              obtain ⟨a, b, c⟩ := sourceDrainLoopAux_patch_fields _ _ _ _ hdrain
              have h7 := patinv_of_fields pat _ _ h6 a b c
              cases heq
              obtain ⟨a2, b2, c2⟩ := targetPadLoopAux_patch_fields (target_size + 1) target_size s7
              exact patinv_of_fields pat _ _ h7 a2 b2 c2

/-- On success, verification's final state is the phase-1 state after the
two 4-byte trailer reads through the patch cursor (the final patch-checksum
field is read through the raw handle, which folds nothing). -/
theorem patchVerify_state (skip : Bool) (o : Phase1Out)
    (pr : PatchResult × PState) (heq : patchVerify skip o = .ok pr) :
    pr.2 = (readPatch (readPatch o.st 4).2 4).2 := by
  unfold patchVerify at heq
  dsimp only at heq
  split at heq
  · exact Except.noConfusion heq
  · split at heq
    · exact Except.noConfusion heq
    · split at heq
      · exact Except.noConfusion heq
      · cases heq; rfl

/-- C8 amended: in every completed apply run whose instruction loop stops
exactly at `patch_size - 12` (as every well-formed patch does) and whose
patch stream holds at least `patch_size - 4` bytes, the computed patch
checksum covers precisely the bytes from the magic tag through the source-
and target-checksum trailer fields — `pat.take (patch_size - 4)` — and
excludes exactly the final 4-byte patch-checksum field. -/
theorem patch_checksum_covers_all_but_final_field
    (src pat : List Nat) (psize : Nat) (skip : Bool) (out : Phase1Out)
    (r : PatchResult × PState)
    (h12 : 12 ≤ psize) (hlen : psize - 4 ≤ pat.length)
    (hph : patchPhase1 src pat psize = .ok out)
    (hend : out.st.ppos = psize - 12)
    (hrun : patchModel src pat psize skip = .ok r) :
    r.2.pcrc = crc32 (pat.take (psize - 4)) 0 := by
  have hinv := patchPhase1_patinv src pat psize out hph
  unfold patchModel at hrun
  rw [hph] at hrun
  have hst := patchVerify_state skip out r hrun
  have hinv1 := readPatch_patinv pat out.st 4 hinv
  obtain ⟨hp0, hp1, hp2⟩ := hinv
  set X := (readPatch out.st 4).2 with hX
  have hpos1 : X.ppos = psize - 12 + 4 := by
    rw [hX]
    simp only [readPatch, readAt, List.length_take, List.length_drop, hp0, hend]
    omega
  have hq0 : X.pat = pat := hinv1.1
  have hpos2 : (readPatch X 4).2.ppos = psize - 4 := by
    simp only [readPatch, readAt, List.length_take, List.length_drop]
    rw [hq0, hpos1]
    omega
  have hr2 := (readPatch_patinv pat X 4 hinv1).2.2
  rw [hst, hr2, hpos2]

theorem patch_checksum_covers_all_but_final_field_witness :
    ((12 : Nat) ≤ 25 ∧ (25 : Nat) - 4 ≤ c6pat.length ∧
      patchPhase1 [] c6pat 25 = .ok c6out ∧ c6out.st.ppos = 25 - 12 ∧
      patchModel [] c6pat 25 false = .ok c6res) ∧
    c6res.2.pcrc = crc32 (c6pat.take (25 - 4)) 0 :=
  ⟨⟨by decide, by decide, by decide, by decide, by decide⟩,
    patch_checksum_covers_all_but_final_field [] c6pat 25 false c6out c6res
      (by decide) (by decide) (by decide) (by decide) (by decide)⟩
